import Mathlib

/-!
# Verification of the AbsorbSync resumable sync engine

A shallow embedding of `absorb_sync.py` (the AbsorbSync repository): the
per-row processing policy (`_process_single_user`), value parsing
(`parse_int_from_string`, `is_numeric_only`), the field accessor
(`get_nested_field_value`), the progress journal (`_load_progress`,
`_merge_progress_to_csv`), the resume/skip logic of `sync_external_ids`,
and the retry/reauthentication loop of `AbsorbLMSClient._retry_request`.

Python strings are Lean `String`s, Python ints are `Int`, the finite
decimal literals accepted by `float(...)` are modelled exactly as
`sign × mantissa × 10^exponent` (the values exercised by the sync are
exactly representable, so the model and IEEE-754 agree on them), and
fallible operations return `Option`.
-/

/-- Characters considered digits by `str.isdigit` (ASCII fragment). -/
def isDigitChar (c : Char) : Bool := c.isDigit

/-- Embeds `is_numeric_only` (absorb_sync.py lines 792-804):
`value.isdigit()` on a non-empty string, `False` on the empty string. -/
def is_numeric_only (value : String) : Bool :=
  if value = "" then false
  else value.toList.all isDigitChar

/-- Numeric value of a digit list read left to right. -/
def digitsToNat (cs : List Char) : Nat :=
  List.foldl (fun acc d => 10 * acc + (d.toNat - 48)) 0 cs

/-- Drop leading and trailing whitespace from a character list
(models the whitespace stripping `float(...)` performs). -/
def trimChars (cs : List Char) : List Char :=
  ((cs.dropWhile Char.isWhitespace).reverse.dropWhile Char.isWhitespace).reverse

/-- Split an optional leading sign; returns (isNegative, rest). -/
def splitSign : List Char → Bool × List Char
  | '-' :: cs => (true, cs)
  | '+' :: cs => (false, cs)
  | cs => (false, cs)

/-- Parse the exponent suffix of a float literal: either empty or
`[eE][+-]?digits`.  Returns the exponent, or `none` on a malformed tail. -/
def parseExpTail : List Char → Option Int
  | [] => some 0
  | 'e' :: cs =>
    match splitSign cs with
    | (neg, ds) =>
      if ds ≠ [] ∧ ds.all isDigitChar then
        some (if neg then -(digitsToNat ds : Int) else (digitsToNat ds : Int))
      else none
  | 'E' :: cs =>
    match splitSign cs with
    | (neg, ds) =>
      if ds ≠ [] ∧ ds.all isDigitChar then
        some (if neg then -(digitsToNat ds : Int) else (digitsToNat ds : Int))
      else none
  | _ => none

/-- Parse an unsigned float literal `digits[.digits][exp]` / `.digits[exp]`
into an exact `(mantissa, base-10 exponent)` pair: value = m * 10^e. -/
def parseUnsignedFloat (cs : List Char) : Option (Nat × Int) :=
  let ip := cs.takeWhile isDigitChar
  let r1 := cs.dropWhile isDigitChar
  match r1 with
  | '.' :: r2 =>
    let fp := r2.takeWhile isDigitChar
    let r3 := r2.dropWhile isDigitChar
    if ip = [] ∧ fp = [] then none
    else
      (parseExpTail r3).map fun e =>
        (digitsToNat (ip ++ fp), e - (fp.length : Int))
  | r =>
    if ip = [] then none
    else (parseExpTail r).map fun e => (digitsToNat ip, e)

/-- Models CPython `float(value)` on finite decimal literals, exactly, as
`(isNegative, mantissa, exponent)` with value `±mantissa·10^exponent`:
optional surrounding whitespace, optional sign, decimal mantissa, optional
exponent.  (The `inf`/`nan` spellings, digit underscores and overflow to
infinity are not modelled; no claim touches them.) -/
def pyFloat (value : String) : Option (Bool × Nat × Int) :=
  let cs := trimChars value.toList
  match splitSign cs with
  | (neg, rest) =>
    if rest = [] then none
    else (parseUnsignedFloat rest).map fun p => (neg, p.1, p.2)

/-- Python `int(...)` applied to the exact decimal `±m·10^e`: truncation
toward zero (for the non-negative magnitude, `Nat` division is exactly
truncation). -/
def pyTruncDec (neg : Bool) (m : Nat) (e : Int) : Int :=
  let mag : Nat := if 0 ≤ e then m * 10 ^ e.toNat else m / 10 ^ (-e).toNat
  if neg then -(mag : Int) else (mag : Int)

/-- Embeds `parse_int_from_string` (absorb_sync.py lines 774-789):
`None` for the empty string, otherwise `int(float(value))`, with `None`
when `float` raises. -/
def parse_int_from_string (value : String) : Option Int :=
  if value = "" then none
  else (pyFloat value).map fun t => pyTruncDec t.1 t.2.1 t.2.2

example : parse_int_from_string "100" = some 100 := by decide
example : parse_int_from_string "-2.5" = some (-2) := by decide
example : parse_int_from_string "N/A" = none := by decide
example : parse_int_from_string "" = none := by decide
example : parse_int_from_string "2.e3" = some 2000 := by decide
example : parse_int_from_string ".5" = some 0 := by decide
example : parse_int_from_string "999" = some 999 := by decide
example : is_numeric_only "100" = true := by decide
example : is_numeric_only "ABC123" = false := by decide
example : is_numeric_only "1.5" = false := by decide

/-! ## The ledger and the per-row policy -/

/-- A row of the ledger CSV.  `snapshotOk` abstracts whether the row's
`user_data_json` column parses (`json.loads` at absorb_sync.py line 652);
the snapshot's contents are only forwarded to the update call and never
inspected by the policy. -/
structure LedgerRow where
  status : String
  id : String
  username : String
  sourceValue : String
  currentFieldValue : String
  snapshotOk : Bool
deriving DecidableEq, Repr

/-- The value returned by `_process_single_user`, extended with
`updateCalled`: whether `client.update_user` was invoked on the way to
this return. -/
structure ProcResult where
  status : Option String
  resultType : String
  updateCalled : Bool
deriving DecidableEq, Repr

/-- Embeds `_process_single_user` (absorb_sync.py lines 623-699).
`updateOk` models the boolean result of `client.update_user`. -/
def processSingleUser (row : LedgerRow) (dryRun overwrite allowAlpha updateOk : Bool) :
    ProcResult :=
  if ¬ row.snapshotOk then ⟨some "Failure", "error", false⟩
  else if row.sourceValue = "" ∧ row.currentFieldValue ≠ "" then
    ⟨some "Different", "skip", false⟩
  else if row.sourceValue = "" then ⟨none, "skip_blank", false⟩
  else if ¬ allowAlpha ∧ ¬ is_numeric_only row.sourceValue then
    ⟨some "Wrong Format", "skip", false⟩
  else
    let currentFieldInt := parse_int_from_string row.currentFieldValue
    let sourceValueInt := parse_int_from_string row.sourceValue
    if ¬ overwrite ∧ currentFieldInt.isSome ∧ currentFieldInt ≠ sourceValueInt then
      ⟨some "Different", "skip", false⟩
    else if dryRun then ⟨some "Success", "success", false⟩
    else if updateOk then ⟨some "Success", "success", true⟩
    else ⟨some "Failure", "error", true⟩

/-! ## Progress journal -/

/-- Insert with replacement into an association list, modelling assignment
into a Python dict (insertion order preserved, assignment to an existing
key replaces its value in place, a fresh key goes to the end). -/
def dictInsert : List (String × String) → String → String → List (String × String)
  | [], k, v => [(k, v)]
  | p :: rest, k, v =>
    if p.1 = k then (k, v) :: rest else p :: dictInsert rest k v

/-- Lookup in the association-list dict model. -/
def dictGet (m : List (String × String)) (k : String) : Option String :=
  (m.find? (fun p => p.1 = k)).map (fun p => p.2)

/-- Embeds `_load_progress` (absorb_sync.py lines 527-550): replay journal
entries in file order into a dict, so the last entry for an id wins. -/
def load_progress (entries : List (String × String)) : List (String × String) :=
  entries.foldl (fun m e => dictInsert m e.1 e.2) []

/-- Embeds `TERMINAL_STATUSES` (absorb_sync.py line 519).  The spec names
the `Wrong Format` status `WrongFormat`. -/
def TERMINAL_STATUSES : List String := ["Success", "Different", "Wrong Format"]

/-- The row-skipping decision used both by the remaining-work scan
(absorb_sync.py lines 887-895) and by the processing loop (lines 976-994):
skip when the progress journal holds a terminal status for the row's id,
or when the row's own Status column is terminal. -/
def rowSkipped (completed : List (String × String)) (row : LedgerRow) : Bool :=
  (match dictGet completed row.id with
   | some s => TERMINAL_STATUSES.contains s
   | none => false)
  || TERMINAL_STATUSES.contains row.status

/-- The rows a run actually dispatches to workers (absorb_sync.py
lines 976-996). -/
def processedRows (rows : List LedgerRow) (completed : List (String × String)) :
    List LedgerRow :=
  rows.filter (fun r => ¬ rowSkipped completed r)

/-- Embeds `remaining_count` (absorb_sync.py lines 886-895). -/
def remainingCount (rows : List LedgerRow) (completed : List (String × String)) : Nat :=
  (processedRows rows completed).length

/-- Ids for which a run invokes `client.update_user`, with `updateOk`
standing for every update call's result. -/
def updateInvokedIds (rows : List LedgerRow) (completed : List (String × String))
    (dryRun overwrite allowAlpha updateOk : Bool) : List String :=
  ((processedRows rows completed).filter
    (fun r => (processSingleUser r dryRun overwrite allowAlpha updateOk).updateCalled)).map
    (fun r => r.id)

/-- Per-row effect of the journal merge (absorb_sync.py lines 599-603):
overwrite the Status column when the journal dict has the row's id. -/
def mergeRow (progress : List (String × String)) (row : LedgerRow) : LedgerRow :=
  match dictGet progress row.id with
  | some s => { row with status := s }
  | none => row

/-- The full pass `_merge_progress_to_csv` writes (lines 595-603). -/
def mergeRows (rows : List LedgerRow) (progress : List (String × String)) :
    List LedgerRow :=
  rows.map (mergeRow progress)

/-- The journal entries `process_and_track` appends during one run
(absorb_sync.py lines 932-940): one `(id, status)` per processed row whose
policy result carries a status.  (Worker concurrency can permute these
appends; since the ledger has one row per id, the resulting dict is
order-independent.) -/
def runJournalAppends (rows : List LedgerRow) (completed : List (String × String))
    (dryRun overwrite allowAlpha updateOk : Bool) : List (String × String) :=
  (processedRows rows completed).filterMap
    (fun r => (processSingleUser r dryRun overwrite allowAlpha updateOk).status.map
      (fun s => (r.id, s)))

/-- The ledger rows on disk after `sync_external_ids` finishes
(absorb_sync.py lines 879-1009), given the rows read from the CSV and the
pre-existing progress-journal entries.  The interactive confirmation of a
non-dry run is modelled as answered affirmatively. -/
def syncLedgerAfterRun (rows : List LedgerRow) (priorJournal : List (String × String))
    (dryRun overwrite allowAlpha updateOk : Bool) : List LedgerRow :=
  let completed := load_progress priorJournal
  if remainingCount rows completed = 0 then
    if completed.isEmpty then rows else mergeRows rows completed
  else
    let appends := runJournalAppends rows completed dryRun overwrite allowAlpha updateOk
    let finalProgress := load_progress (priorJournal ++ appends)
    if finalProgress.isEmpty then rows else mergeRows rows finalProgress

example :
    processSingleUser ⟨"Retrieved", "id1", "u1", "", "999", true⟩ false false false true
      = ⟨some "Different", "skip", false⟩ := by decide
example :
    processSingleUser ⟨"Retrieved", "id1", "u1", "250", "999", true⟩ false false false true
      = ⟨some "Different", "skip", false⟩ := by decide
example :
    processSingleUser ⟨"Retrieved", "id1", "u1", "ABC123", "", true⟩ false false false true
      = ⟨some "Wrong Format", "skip", false⟩ := by decide
example :
    processSingleUser ⟨"Retrieved", "id1", "u1", "123", "N/A", true⟩ false false false true
      = ⟨some "Success", "success", true⟩ := by decide
example :
    processSingleUser ⟨"Retrieved", "id1", "u1", "100", "", true⟩ true false false true
      = ⟨some "Success", "success", false⟩ := by decide
example :
    syncLedgerAfterRun [⟨"Retrieved", "id1", "user1", "100", "", true⟩] [] true false false true
      = [⟨"Success", "id1", "user1", "100", "", true⟩] := by decide

/-! ## Journal dictionary lemmas -/

theorem dictGet_cons (p : String × String) (m : List (String × String)) (k : String) :
    dictGet (p :: m) k = if p.1 = k then some p.2 else dictGet m k := by
  by_cases h : p.1 = k <;> simp [dictGet, List.find?_cons, h]

theorem dictGet_dictInsert (m : List (String × String)) (k k' v : String) :
    dictGet (dictInsert m k v) k' = if k' = k then some v else dictGet m k' := by
  induction m with
  | nil =>
    show dictGet [(k, v)] k' = _
    rw [dictGet_cons]
    by_cases h : k' = k
    · subst h
      simp
    · have h2 : ¬ k = k' := fun hh => h hh.symm
      rw [if_neg h2, if_neg h]
  | cons p rest ih =>
    show dictGet (if p.1 = k then (k, v) :: rest else p :: dictInsert rest k v) k' = _
    by_cases hpk : p.1 = k
    · rw [if_pos hpk, dictGet_cons, dictGet_cons]
      by_cases h : k' = k
      · subst h
        simp
      · have h2 : ¬ k = k' := fun hh => h hh.symm
        have h3 : ¬ p.1 = k' := fun hh => h2 (by rw [← hpk, hh])
        rw [if_neg h2, if_neg h, if_neg h3]
    · rw [if_neg hpk, dictGet_cons, ih, dictGet_cons]
      by_cases hpk' : p.1 = k'
      · have h : ¬ k' = k := fun hh => hpk (by rw [hpk', hh])
        rw [if_pos hpk', if_neg h, if_pos hpk']
      · rw [if_neg hpk']
        by_cases h : k' = k
        · rw [if_pos h, if_pos h]
        · rw [if_neg h, if_neg h, if_neg hpk']

theorem dictGet_foldl_dictInsert_of_not_mem (entries : List (String × String))
    (m : List (String × String)) (k : String) (h : ∀ e ∈ entries, e.1 ≠ k) :
    dictGet (entries.foldl (fun m e => dictInsert m e.1 e.2) m) k = dictGet m k := by
  induction entries generalizing m with
  | nil => rfl
  | cons e rest ih =>
    have hek : e.1 ≠ k := h e (List.mem_cons_self e rest)
    have hrest : ∀ x ∈ rest, x.1 ≠ k := fun x hx => h x (List.mem_cons_of_mem e hx)
    have h2 : ¬ k = e.1 := fun hh => hek hh.symm
    simp only [List.foldl_cons]
    rw [ih _ hrest, dictGet_dictInsert, if_neg h2]

theorem dictGet_load_progress_last (l1 post : List (String × String)) (k v : String)
    (h : ∀ e ∈ post, e.1 ≠ k) :
    dictGet (load_progress (l1 ++ (k, v) :: post)) k = some v := by
  unfold load_progress
  rw [List.foldl_append, List.foldl_cons,
    dictGet_foldl_dictInsert_of_not_mem post _ k h, dictGet_dictInsert]
  simp

/-! ## Claims on the per-row policy and resume logic -/

/-- C3: a row with parseable snapshot, empty source value and non-empty
current destination value is given terminal status `Different` (result
type skip) — never `Wrong Format` — for every combination of flags, and
the update operation is not invoked for it. -/
theorem c3_blank_source_marks_different (row : LedgerRow)
    (dryRun overwrite allowAlpha updateOk : Bool)
    (hsnap : row.snapshotOk = true) (hsrc : row.sourceValue = "")
    (hdst : row.currentFieldValue ≠ "") :
    processSingleUser row dryRun overwrite allowAlpha updateOk
      = ⟨some "Different", "skip", false⟩ := by
  simp [processSingleUser, hsnap, hsrc, hdst]

theorem c3_blank_source_marks_different_witness :
    processSingleUser ⟨"Retrieved", "id1", "u1", "", "999", true⟩ true false true true
      = ⟨some "Different", "skip", false⟩ :=
  c3_blank_source_marks_different _ true false true true rfl rfl (by decide)

/-- C10: with overwrite disabled, a row whose source value passes format
validation but whose non-empty current destination value does not parse as
a number (e.g. "N/A") is not caught by the numeric-comparison guard: the
update operation is invoked and, on success, the non-numeric destination
value is replaced. -/
theorem c10_nonnumeric_destination_overwritten (row : LedgerRow)
    (allowAlpha updateOk : Bool)
    (hsnap : row.snapshotOk = true) (hsrc : row.sourceValue ≠ "")
    (hval : allowAlpha = true ∨ is_numeric_only row.sourceValue = true)
    (hdst : row.currentFieldValue ≠ "")
    (hparse : parse_int_from_string row.currentFieldValue = none) :
    processSingleUser row false false allowAlpha updateOk
      = ⟨some (if updateOk then "Success" else "Failure"),
         if updateOk then "success" else "error", true⟩ := by
  rcases hval with h | h <;>
    cases updateOk <;>
      simp [processSingleUser, hsnap, hsrc, hparse, h]

theorem c10_nonnumeric_destination_overwritten_witness :
    processSingleUser ⟨"Retrieved", "id9", "u9", "123", "N/A", true⟩ false false false true
      = ⟨some "Success", "success", true⟩ :=
  c10_nonnumeric_destination_overwritten _ false true rfl (by decide)
    (Or.inr (by decide)) (by decide) (by decide)

/-- C4 counterexample: the claim says parsing floors ("-2.5" yields -3);
`parse_int_from_string` is `int(float(value))`, which truncates toward
zero and yields -2 on "-2.5". -/
theorem c4_parse_floors_counterexample :
    parse_int_from_string "-2.5" = some (-2) ∧ some (-2 : Int) ≠ some (-3 : Int) := by
  decide

/-- C4 (amended): both values are parsed as integers by truncating any
decimal toward zero (parsing "-2.5" yields -2); when overwrite is false,
the row reaches the numeric guard (snapshot parses, source value non-empty
and passing format validation), both values parse and the two integers
differ, the row is assigned terminal status `Different`. -/
theorem c4_truncation_guard_different (row : LedgerRow)
    (dryRun allowAlpha updateOk : Bool) (c s : Int)
    (hsnap : row.snapshotOk = true) (hsrc : row.sourceValue ≠ "")
    (hval : allowAlpha = true ∨ is_numeric_only row.sourceValue = true)
    (hc : parse_int_from_string row.currentFieldValue = some c)
    (hs : parse_int_from_string row.sourceValue = some s)
    (hne : c ≠ s) :
    parse_int_from_string "-2.5" = some (-2) ∧
    processSingleUser row dryRun false allowAlpha updateOk
      = ⟨some "Different", "skip", false⟩ := by
  refine ⟨by decide, ?_⟩
  have hneq : parse_int_from_string row.currentFieldValue
      ≠ parse_int_from_string row.sourceValue := by
    rw [hc, hs]
    exact fun hh => hne (Option.some.inj hh)
  rcases hval with h | h <;>
    simp [processSingleUser, hsnap, hsrc, h, hc, hs, hneq, hne]

theorem c4_truncation_guard_different_witness :
    parse_int_from_string "-2.5" = some (-2) ∧
    processSingleUser ⟨"Retrieved", "id2", "u2", "250", "999", true⟩ false false false true
      = ⟨some "Different", "skip", false⟩ :=
  c4_truncation_guard_different _ false false true 999 250 rfl (by decide)
    (Or.inr (by decide)) (by decide) (by decide) (by decide)

/-- C1 counterexample: `Failure` is not in `TERMINAL_STATUSES`, so a row
whose Status column is `Failure` (and likewise a row whose journal entry
is `Failure`) is not skipped: it counts as remaining work, is dispatched
to processing, and the update operation is invoked for it. -/
theorem c1_failure_reprocessed_counterexample :
    rowSkipped [] ⟨"Failure", "idF", "u", "100", "", true⟩ = false ∧
    rowSkipped [("idF", "Failure")] ⟨"Retrieved", "idF", "u", "100", "", true⟩ = false ∧
    remainingCount [⟨"Failure", "idF", "u", "100", "", true⟩] [] = 1 ∧
    updateInvokedIds [⟨"Failure", "idF", "u", "100", "", true⟩] [] false false false true
      = ["idF"] := by
  decide

/-- C1 (amended): the terminal statuses are `Success`, `Different` and
`Wrong Format` (`Failure` rows are reprocessed); every ledger row whose
Status column is terminal, or whose id has a terminal status in the loaded
Progress Journal, is skipped by the remaining-work scan and by the
processing loop, the update operation is not invoked for its id, and no
new journal entry is appended for its id. -/
theorem c1_terminal_rows_not_reprocessed
    (rows : List LedgerRow) (completed : List (String × String)) (row : LedgerRow)
    (dryRun overwrite allowAlpha updateOk : Bool)
    (hmem : row ∈ rows)
    (hnodup : (rows.map (fun r => r.id)).Nodup)
    (hterm : TERMINAL_STATUSES.contains row.status = true ∨
      (∃ s, dictGet completed row.id = some s ∧ TERMINAL_STATUSES.contains s = true)) :
    rowSkipped completed row = true ∧
    row ∉ processedRows rows completed ∧
    row.id ∉ updateInvokedIds rows completed dryRun overwrite allowAlpha updateOk ∧
    ∀ s, (row.id, s) ∉ runJournalAppends rows completed dryRun overwrite allowAlpha updateOk := by
  have hskip : rowSkipped completed row = true := by
    unfold rowSkipped
    rcases hterm with h | ⟨s, hs, hterm⟩
    · rw [h, Bool.or_true]
    · rw [hs]
      show (TERMINAL_STATUSES.contains s || TERMINAL_STATUSES.contains row.status) = true
      rw [hterm, Bool.true_or]
  refine ⟨hskip, ?_, ?_, ?_⟩
  · intro hmemp
    have := (List.mem_filter.mp hmemp).2
    simp [hskip] at this
  · intro hid
    rcases List.mem_map.mp hid with ⟨r, hr, hrid⟩
    have hr1 := (List.mem_filter.mp hr).1
    have hrmem : r ∈ rows := (List.mem_filter.mp hr1).1
    have hrskip := (List.mem_filter.mp hr1).2
    have heq : r = row := List.inj_on_of_nodup_map hnodup hrmem hmem hrid
    rw [heq, hskip] at hrskip
    simp at hrskip
  · intro s hsmem
    rcases List.mem_filterMap.mp hsmem with ⟨r, hr, heq⟩
    have hrmem : r ∈ rows := (List.mem_filter.mp hr).1
    have hrskip := (List.mem_filter.mp hr).2
    have hrid : r.id = row.id := by
      cases hst : (processSingleUser r dryRun overwrite allowAlpha updateOk).status with
      | none => rw [hst] at heq; simp at heq
      | some s2 =>
        rw [hst] at heq
        simp at heq
        exact heq.1
    have heqr : r = row := List.inj_on_of_nodup_map hnodup hrmem hmem hrid
    rw [heqr, hskip] at hrskip
    simp at hrskip

theorem c1_terminal_rows_not_reprocessed_witness :
    rowSkipped [] ⟨"Success", "idS", "u", "100", "", true⟩ = true ∧
    (⟨"Success", "idS", "u", "100", "", true⟩ : LedgerRow)
      ∉ processedRows [⟨"Success", "idS", "u", "100", "", true⟩] [] ∧
    "idS" ∉ updateInvokedIds [⟨"Success", "idS", "u", "100", "", true⟩] []
      false false false true ∧
    ("idS", "Success") ∉ runJournalAppends [⟨"Success", "idS", "u", "100", "", true⟩] []
      false false false true := by
  have h := c1_terminal_rows_not_reprocessed
    [⟨"Success", "idS", "u", "100", "", true⟩] [] ⟨"Success", "idS", "u", "100", "", true⟩
    false false false true (by decide) (by decide) (Or.inl (by decide))
  exact ⟨h.1, h.2.1, h.2.2.1, h.2.2.2 "Success"⟩

/-- C2 (code bug): in dry-run mode the processing loop still journals
`Success` for each processed row and the closing merge writes the journal
into the ledger file; on a one-row `Retrieved` ledger a dry run flips the
row's Status to `Success`, so the on-disk ledger is not left byte-for-byte
identical (the repository's own test asserts it must be). -/
theorem c2_dry_run_mutates_ledger :
    syncLedgerAfterRun [⟨"Retrieved", "id1", "user1", "100", "", true⟩] [] true false false true
        = [⟨"Success", "id1", "user1", "100", "", true⟩] ∧
    ([⟨"Success", "id1", "user1", "100", "", true⟩] : List LedgerRow)
        ≠ [⟨"Retrieved", "id1", "user1", "100", "", true⟩] := by
  decide

/-- C7: journal replay is last-write-wins per id: a journal holding a
`Failure` entry for an id followed later by a `Success` entry, with no
later entry for that id, loads to `Success` for that id, and merging it
into the ledger sets that row's Status to `Success`. -/
theorem c7_journal_last_write_wins (pre mid post : List (String × String))
    (id1 : String) (row : LedgerRow)
    (hpost : ∀ e ∈ post, e.1 ≠ id1) (hrow : row.id = id1) :
    dictGet (load_progress (pre ++ ((id1, "Failure") :: mid) ++ ((id1, "Success") :: post)))
        id1 = some "Success" ∧
    mergeRow (load_progress (pre ++ ((id1, "Failure") :: mid) ++ ((id1, "Success") :: post)))
        row = { row with status := "Success" } := by
  have hload : dictGet
      (load_progress (pre ++ ((id1, "Failure") :: mid) ++ ((id1, "Success") :: post))) id1
      = some "Success" :=
    dictGet_load_progress_last _ post id1 "Success" hpost
  refine ⟨hload, ?_⟩
  unfold mergeRow
  rw [hrow, hload]

theorem c7_journal_last_write_wins_witness :
    dictGet (load_progress ([("a", "Success")] ++ (("id1", "Failure") :: [])
        ++ (("id1", "Success") :: [("b", "Failure")]))) "id1" = some "Success" ∧
    mergeRow (load_progress ([("a", "Success")] ++ (("id1", "Failure") :: [])
        ++ (("id1", "Success") :: [("b", "Failure")])))
        ⟨"Retrieved", "id1", "u", "1", "", true⟩
      = ⟨"Success", "id1", "u", "1", "", true⟩ :=
  c7_journal_last_write_wins [("a", "Success")] [] [("b", "Failure")] "id1"
    ⟨"Retrieved", "id1", "u", "1", "", true⟩ (by decide) rfl

/-! ## Authenticated transport: retry, backoff, reauthentication

`AbsorbLMSClient._retry_request` is driven by the outside world (server
responses, network faults, other threads refreshing the token).  A run is
embedded against a script of events, one per issued request: a response
with its status, together with whether another caller refreshed the
credentials between this caller's version read and its lock acquisition
(`otherRefreshed`) and whether an authentication attempt made now would
succeed (`authOk`); or a network-level exception.  Delays are the exact
naturals `1·2^k` seconds (the code's `initial_delay` is the float `1.0`,
doubled between attempts, and no caller overrides it). -/

/-- One issued request's fate, plus the reauthentication environment.  -/
inductive Event where
  | resp (status : Nat) (otherRefreshed : Bool) (authOk : Bool)
  | exn
deriving DecidableEq, Repr

/-- How `_retry_request` ends. -/
inductive ReqOutcome where
  | response (status : Nat)
  | maxRetriesStatus (last : Nat)
  | maxRetriesExn
  | scriptEnded
deriving DecidableEq, Repr

/-- Observable result of a `_retry_request` run: its outcome, the sleeps
performed (in seconds, in order), how many `authenticate` calls were made,
and the final credential version. -/
structure RunResult where
  outcome : ReqOutcome
  sleeps : List Nat
  authCalls : Nat
  tokenVersion : Nat
deriving DecidableEq, Repr

/-- The retryable server statuses (absorb_sync.py line 241). -/
def retryableStatuses : List Nat := [429, 500, 502, 503, 504]

/-- Embeds `AbsorbLMSClient._try_reauthenticate` (absorb_sync.py
lines 134-151): under the auth lock, if the credential version at lock
time exceeds the version the caller observed, report success without
authenticating; otherwise authenticate (bumping the version on success).
Returns (result, new version, number of `authenticate` calls made). -/
def tryReauthenticate (versionAtLock observedBefore : Nat) (authResult : Bool) :
    Bool × Nat × Nat :=
  if versionAtLock > observedBefore then (true, versionAtLock, 0)
  else if authResult then (true, versionAtLock + 1, 1)
  else (false, versionAtLock, 1)

/-- Embeds the loop of `AbsorbLMSClient._retry_request` (absorb_sync.py
lines 201-273), one script event per issued request.  Arguments after the
script mirror the loop state: `attempt`, `reauthAttempts`, `delay`, the
client's `_token_version`, plus accumulators for `authenticate` calls and
sleeps performed. -/
def retryAux (isAuthEndpoint : Bool) (maxRetries maxReauth : Nat) :
    List Event → Nat → Nat → Nat → Nat → Nat → List Nat → RunResult
  | [], _, _, _, tv, ac, sl => ⟨.scriptEnded, sl, ac, tv⟩
  | .resp s other authOk :: rest, attempt, ra, delay, tv, ac, sl =>
    if s = 401 then
      if ¬ isAuthEndpoint ∧ ra < maxReauth then
        let vLock := tv + (if other then 1 else 0)
        match tryReauthenticate vLock tv authOk with
        | (ok, tv2, acInc) =>
          if ok then
            retryAux isAuthEndpoint maxRetries maxReauth rest
              attempt (ra + 1) delay tv2 (ac + acInc) sl
          else ⟨.response 401, sl, ac + acInc, tv2⟩
      else ⟨.response s, sl, ac, tv⟩
    else if s ∈ retryableStatuses then
      if attempt < maxRetries - 1 then
        retryAux isAuthEndpoint maxRetries maxReauth rest
          (attempt + 1) ra (delay * 2) tv ac (sl ++ [delay])
      else ⟨.maxRetriesStatus s, sl, ac, tv⟩
    else ⟨.response s, sl, ac, tv⟩
  | .exn :: rest, attempt, ra, delay, tv, ac, sl =>
    if attempt < maxRetries - 1 then
      retryAux isAuthEndpoint maxRetries maxReauth rest
        (attempt + 1) ra (delay * 2) tv ac (sl ++ [delay])
    else ⟨.maxRetriesExn, sl, ac, tv⟩

/-- Runs `_retry_request` from its entry state: `attempt = 0`,
`reauth_attempts = 0`, `delay = initial_delay = 1`. -/
def retryRequest (isAuthEndpoint : Bool) (maxRetries maxReauth tokenVersion : Nat)
    (events : List Event) : RunResult :=
  retryAux isAuthEndpoint maxRetries maxReauth events 0 0 1 tokenVersion 0 []

theorem retryable_ne_401 (s : Nat) (h : s ∈ retryableStatuses) : s ≠ 401 := by
  intro hh
  subst hh
  revert h
  decide

example :
    retryRequest false 5 1 7 [.resp 500 false false, .resp 200 false false]
      = ⟨.response 200, [1], 0, 7⟩ := by decide
example :
    retryRequest false 5 1 7
      [.resp 429 false false, .resp 500 false false, .resp 502 false false,
       .resp 503 false false, .resp 504 false false]
      = ⟨.maxRetriesStatus 504, [1, 2, 4, 8], 0, 7⟩ := by decide
example :
    retryRequest false 5 1 7 [.resp 401 true false, .resp 204 false false]
      = ⟨.response 204, [], 0, 8⟩ := by decide

/-- C5: a request whose every issued attempt draws a retryable status
({429,500,502,503,504}) sleeps `delay` and doubles it (starting at 1s)
between attempts, and with the default budget `max_retries = 5` fails
after the fifth attempt with a terminal error carrying the last observed
status rather than returning a response; a status outside the retryable
set other than 401 is returned immediately, a 401 on the authentication
endpoint is returned immediately, and a 401 whose reauthentication fails
is returned as a response. -/
theorem c5_backoff_and_exhaustion (s1 s2 s3 s4 s5 : Nat)
    (o1 o2 o3 o4 o5 a1 a2 a3 a4 a5 : Bool) (tv : Nat)
    (h1 : s1 ∈ retryableStatuses) (h2 : s2 ∈ retryableStatuses)
    (h3 : s3 ∈ retryableStatuses) (h4 : s4 ∈ retryableStatuses)
    (h5 : s5 ∈ retryableStatuses) :
    retryRequest false 5 1 tv
      [.resp s1 o1 a1, .resp s2 o2 a2, .resp s3 o3 a3, .resp s4 o4 a4, .resp s5 o5 a5]
      = ⟨.maxRetriesStatus s5, [1, 2, 4, 8], 0, tv⟩ ∧
    (∀ s o a rest, s ∉ retryableStatuses → s ≠ 401 →
      retryRequest false 5 1 tv (.resp s o a :: rest) = ⟨.response s, [], 0, tv⟩) ∧
    (∀ o a rest, retryRequest true 5 1 tv (.resp 401 o a :: rest)
      = ⟨.response 401, [], 0, tv⟩) ∧
    (∀ rest, retryRequest false 5 1 tv (.resp 401 false false :: rest)
      = ⟨.response 401, [], 1, tv⟩) := by
  have n1 := retryable_ne_401 s1 h1
  have n2 := retryable_ne_401 s2 h2
  have n3 := retryable_ne_401 s3 h3
  have n4 := retryable_ne_401 s4 h4
  have n5 := retryable_ne_401 s5 h5
  refine ⟨?_, ?_, ?_, ?_⟩
  · simp [retryRequest, retryAux, n1, n2, n3, n4, n5, h1, h2, h3, h4, h5]
  · intro s o a rest hnr hne
    simp [retryRequest, retryAux, hne, hnr]
  · intro o a rest
    simp [retryRequest, retryAux]
  · intro rest
    simp [retryRequest, retryAux, tryReauthenticate]

theorem c5_backoff_and_exhaustion_witness :
    retryRequest false 5 1 7
      [.resp 429 false false, .resp 500 false false, .resp 502 false false,
       .resp 503 false false, .resp 504 false false]
      = ⟨.maxRetriesStatus 504, [1, 2, 4, 8], 0, 7⟩ ∧
    retryRequest false 5 1 7 [.resp 200 false false] = ⟨.response 200, [], 0, 7⟩ ∧
    retryRequest true 5 1 7 [.resp 401 false false] = ⟨.response 401, [], 0, 7⟩ ∧
    retryRequest false 5 1 7 [.resp 401 false false] = ⟨.response 401, [], 1, 7⟩ := by
  have h := c5_backoff_and_exhaustion 429 500 502 503 504
    false false false false false false false false false false 7
    (by decide) (by decide) (by decide) (by decide) (by decide)
  exact ⟨h.1, h.2.1 200 false false [] (by decide) (by decide),
    h.2.2.1 false false [], h.2.2.2 []⟩

/-- C6: when a non-authentication request draws a 401 and reauthentication
attempts remain, then under the auth lock: if the credential version has
moved past the version this caller observed, success is reported with no
`authenticate` call and the original request is retried with the same
attempt counter and delay (the backoff budget is not consumed); otherwise
authentication is performed (one `authenticate` call), and on
authentication failure the 401 response is returned as-is instead of
raising. -/
theorem c6_single_flight_reauth (maxRetries maxReauth : Nat) (rest : List Event)
    (attempt ra delay tv ac : Nat) (sl : List Nat) (authOk : Bool)
    (hra : ra < maxReauth) :
    tryReauthenticate (tv + 1) tv authOk = (true, tv + 1, 0) ∧
    retryAux false maxRetries maxReauth (.resp 401 true authOk :: rest)
        attempt ra delay tv ac sl
      = retryAux false maxRetries maxReauth rest attempt (ra + 1) delay (tv + 1) ac sl ∧
    retryAux false maxRetries maxReauth (.resp 401 false true :: rest)
        attempt ra delay tv ac sl
      = retryAux false maxRetries maxReauth rest attempt (ra + 1) delay (tv + 1) (ac + 1) sl ∧
    retryAux false maxRetries maxReauth (.resp 401 false false :: rest)
        attempt ra delay tv ac sl
      = ⟨.response 401, sl, ac + 1, tv⟩ := by
  refine ⟨?_, ?_, ?_, ?_⟩
  · simp [tryReauthenticate]
  · simp [retryAux, tryReauthenticate, hra]
  · simp [retryAux, tryReauthenticate, hra]
  · simp [retryAux, tryReauthenticate, hra]

theorem c6_single_flight_reauth_witness :
    tryReauthenticate 8 7 true = (true, 8, 0) ∧
    retryAux false 5 1 [.resp 401 true true, .resp 204 false false] 0 0 1 7 0 []
      = retryAux false 5 1 [.resp 204 false false] 0 1 1 8 0 [] ∧
    retryAux false 5 1 [.resp 401 false true, .resp 204 false false] 0 0 1 7 0 []
      = retryAux false 5 1 [.resp 204 false false] 0 1 1 8 1 [] ∧
    retryAux false 5 1 [.resp 401 false false, .resp 204 false false] 0 0 1 7 0 []
      = ⟨.response 401, [], 1, 7⟩ :=
  c6_single_flight_reauth 5 1 [.resp 204 false false] 0 0 1 7 0 [] true (by decide)

/-! ## Merge step: exception safety and atomicity

`_merge_progress_to_csv` touches three disk artefacts: the ledger CSV,
the progress journal, and a temp file.  The try block is a sequence of
file operations (write one merged row to the temp file, per ledger row;
atomically replace the ledger with the temp file; remove the journal); an
injected exception before operation `k` runs the except handler, which
removes the temp file and re-raises. -/

/-- The disk state the merge step manipulates.  `journal = none` means the
progress file is absent. -/
structure DiskState where
  ledger : List LedgerRow
  journal : Option (List (String × String))
  temp : Option (List LedgerRow)
deriving DecidableEq, Repr

/-- One file operation of the merge's try block. -/
inductive MergeOp where
  | writeTempRow (r : LedgerRow)
  | replaceLedgerWithTemp
  | removeJournal
deriving DecidableEq, Repr

def applyMergeOp (fs : DiskState) : MergeOp → DiskState
  | .writeTempRow r => { fs with temp := some (fs.temp.getD [] ++ [r]) }
  | .replaceLedgerWithTemp => { fs with ledger := fs.temp.getD [], temp := none }
  | .removeJournal => { fs with journal := none }

/-- The operations of the try block of `_merge_progress_to_csv`
(absorb_sync.py lines 592-609), in program order. -/
def mergeOps (rows : List LedgerRow) (progress : List (String × String)) : List MergeOp :=
  rows.map (fun r => MergeOp.writeTempRow (mergeRow progress r))
    ++ [MergeOp.replaceLedgerWithTemp, MergeOp.removeJournal]

/-- Embeds `_merge_progress_to_csv` (absorb_sync.py lines 570-620) against
the disk state.  `failAt = some k` injects an I/O exception immediately
before the k-th operation of the try block (`k` past the end means no
exception occurs); the except handler removes the temp file and
re-raises.  The returned Bool records whether an exception propagated. -/
def mergeProgressToCsv (fs : DiskState) (failAt : Option Nat) : DiskState × Bool :=
  let progress := load_progress (fs.journal.getD [])
  if progress.isEmpty then (fs, false)
  else
    let ops := mergeOps fs.ledger progress
    let fs1 := { fs with temp := some [] }
    match failAt with
    | none => (ops.foldl applyMergeOp fs1, false)
    | some k =>
      if k < ops.length then
        ({ (ops.take k).foldl applyMergeOp fs1 with temp := none }, true)
      else (ops.foldl applyMergeOp fs1, false)

theorem foldl_writeTemp_frame (ops : List MergeOp) (fs : DiskState)
    (h : ∀ op ∈ ops, ∃ r, op = MergeOp.writeTempRow r) :
    (ops.foldl applyMergeOp fs).ledger = fs.ledger ∧
    (ops.foldl applyMergeOp fs).journal = fs.journal := by
  induction ops generalizing fs with
  | nil => exact ⟨rfl, rfl⟩
  | cons op rest ih =>
    rcases h op (List.mem_cons_self op rest) with ⟨r, hr⟩
    subst hr
    have hrest : ∀ op ∈ rest, ∃ r, op = MergeOp.writeTempRow r :=
      fun op hop => h op (List.mem_cons_of_mem _ hop)
    simpa [applyMergeOp] using ih _ hrest

theorem foldl_no_removeJournal_frame (ops : List MergeOp) (fs : DiskState)
    (h : MergeOp.removeJournal ∉ ops) :
    (ops.foldl applyMergeOp fs).journal = fs.journal := by
  induction ops generalizing fs with
  | nil => rfl
  | cons op rest ih =>
    have hrest : MergeOp.removeJournal ∉ rest := fun hm => h (List.mem_cons_of_mem _ hm)
    have hop : op ≠ MergeOp.removeJournal := fun he => h (he ▸ List.mem_cons_self op rest)
    rw [List.foldl_cons, ih _ hrest]
    cases op with
    | writeTempRow r => rfl
    | replaceLedgerWithTemp => rfl
    | removeJournal => exact absurd rfl hop

theorem writeTempRow_fold (progress : List (String × String)) (rows : List LedgerRow)
    (fs : DiskState) (init : List LedgerRow) (h : fs.temp = some init) :
    (rows.map (fun r => MergeOp.writeTempRow (mergeRow progress r))).foldl applyMergeOp fs
      = { fs with temp := some (init ++ mergeRows rows progress) } := by
  induction rows generalizing fs init with
  | nil =>
    cases fs
    simp only at h
    simp [mergeRows, h]
  | cons r rest ih =>
    simp only [List.map_cons, List.foldl_cons]
    rw [show applyMergeOp fs (MergeOp.writeTempRow (mergeRow progress r))
        = { fs with temp := some (init ++ [mergeRow progress r]) } by
      simp [applyMergeOp, h]]
    rw [ih _ (init ++ [mergeRow progress r]) rfl]
    simp [mergeRows]

theorem removeJournal_not_mem_take (rows : List LedgerRow)
    (progress : List (String × String)) (k : Nat)
    (hk : k < (mergeOps rows progress).length) :
    MergeOp.removeJournal ∉ (mergeOps rows progress).take k := by
  intro hmem
  unfold mergeOps at hmem hk
  rw [List.take_append_eq_append_take] at hmem
  rcases List.mem_append.mp hmem with h | h
  · have hh := List.take_subset _ _ h
    rcases List.mem_map.mp hh with ⟨r, _, hr⟩
    cases hr
  · have hk2 : k < rows.length + 2 := by
      simp only [List.length_append, List.length_map, List.length_cons,
        List.length_nil] at hk
      omega
    have hlen : k - (rows.map (fun r => MergeOp.writeTempRow (mergeRow progress r))).length ≤ 1 := by
      rw [List.length_map]
      omega
    rcases Nat.le_one_iff_eq_zero_or_eq_one.mp hlen with h0 | h1
    · rw [h0] at h
      simp at h
    · rw [h1] at h
      simp at h

/-- C8: the merge step is exception-safe and atomic: an exception anywhere
during the row pass (or at the swap itself) leaves the ledger file exactly
as it was and re-raises; the journal file survives every failing run (it
is only removed by the very last operation); and only a fully successful
merge swaps in the completely rewritten ledger and then deletes the
journal. -/
theorem c8_merge_exception_safe (fs : DiskState) (entries : List (String × String))
    (hj : fs.journal = some entries)
    (hne : (load_progress entries).isEmpty = false) :
    (∀ k, k ≤ fs.ledger.length →
      (mergeProgressToCsv fs (some k)).1.ledger = fs.ledger ∧
      (mergeProgressToCsv fs (some k)).1.journal = some entries ∧
      (mergeProgressToCsv fs (some k)).2 = true) ∧
    (∀ k, (mergeProgressToCsv fs (some k)).2 = true →
      (mergeProgressToCsv fs (some k)).1.journal = some entries) ∧
    ((mergeProgressToCsv fs none).1
        = ⟨mergeRows fs.ledger (load_progress entries), none, none⟩ ∧
      (mergeProgressToCsv fs none).2 = false) ∧
    (∀ k, (mergeProgressToCsv fs (some k)).1.journal = none →
      (mergeProgressToCsv fs (some k)).2 = false ∧
      (mergeProgressToCsv fs (some k)).1
        = ⟨mergeRows fs.ledger (load_progress entries), none, none⟩) := by
  obtain ⟨L, J, T⟩ := fs
  simp only at hj
  subst hj
  have hlenops : (mergeOps L (load_progress entries)).length = L.length + 2 := by
    unfold mergeOps
    simp [List.length_append, List.length_map]
  have hsome : ∀ k, mergeProgressToCsv ⟨L, some entries, T⟩ (some k)
      = if k < (mergeOps L (load_progress entries)).length then
          ({ ((mergeOps L (load_progress entries)).take k).foldl applyMergeOp
              ⟨L, some entries, some []⟩ with temp := none }, true)
        else ((mergeOps L (load_progress entries)).foldl applyMergeOp
              ⟨L, some entries, some []⟩, false) := by
    intro k
    simp [mergeProgressToCsv, hne]
  have hnone : mergeProgressToCsv ⟨L, some entries, T⟩ none
      = ((mergeOps L (load_progress entries)).foldl applyMergeOp
          ⟨L, some entries, some []⟩, false) := by
    simp [mergeProgressToCsv, hne]
  have hfold : (mergeOps L (load_progress entries)).foldl applyMergeOp
      ⟨L, some entries, some []⟩
      = ⟨mergeRows L (load_progress entries), none, none⟩ := by
    unfold mergeOps
    rw [List.foldl_append,
      writeTempRow_fold (load_progress entries) L ⟨L, some entries, some []⟩ [] rfl]
    simp [applyMergeOp]
  have hjournal_take : ∀ k, k < (mergeOps L (load_progress entries)).length →
      (((mergeOps L (load_progress entries)).take k).foldl applyMergeOp
        ⟨L, some entries, some []⟩).journal = some entries := by
    intro k hk
    exact foldl_no_removeJournal_frame _ _
      (removeJournal_not_mem_take L (load_progress entries) k hk)
  refine ⟨?_, ?_, ?_, ?_⟩
  · intro k hk
    have hkL : k ≤ L.length := hk
    have hklt : k < (mergeOps L (load_progress entries)).length := by omega
    rw [hsome k, if_pos hklt]
    have htake : (mergeOps L (load_progress entries)).take k
        = (L.map (fun r => MergeOp.writeTempRow (mergeRow (load_progress entries) r))).take k := by
      unfold mergeOps
      rw [List.take_append_eq_append_take]
      have : k - (L.map (fun r =>
          MergeOp.writeTempRow (mergeRow (load_progress entries) r))).length = 0 := by
        rw [List.length_map]
        exact Nat.sub_eq_zero_of_le hkL
      rw [this]
      simp
    have hwrites : ∀ op ∈ (L.map (fun r =>
        MergeOp.writeTempRow (mergeRow (load_progress entries) r))).take k,
        ∃ r, op = MergeOp.writeTempRow r := by
      intro op hop
      rcases List.mem_map.mp (List.take_subset _ _ hop) with ⟨r, _, hr⟩
      exact ⟨mergeRow (load_progress entries) r, hr.symm⟩
    have hframe := foldl_writeTemp_frame _ ⟨L, some entries, some []⟩ (htake ▸ hwrites)
    exact ⟨hframe.1, hjournal_take k hklt, rfl⟩
  · intro k hk2
    by_cases hklt : k < (mergeOps L (load_progress entries)).length
    · rw [hsome k, if_pos hklt]
      exact hjournal_take k hklt
    · rw [hsome k, if_neg hklt] at hk2
      exact absurd hk2 (by simp)
  · rw [hnone, hfold]
    exact ⟨rfl, rfl⟩
  · intro k hjnone
    by_cases hklt : k < (mergeOps L (load_progress entries)).length
    · rw [hsome k, if_pos hklt] at hjnone
      have := hjournal_take k hklt
      simp only at hjnone
      rw [this] at hjnone
      cases hjnone
    · rw [hsome k, if_neg hklt, hfold]
      exact ⟨rfl, rfl⟩

theorem c8_merge_exception_safe_witness :
    (mergeProgressToCsv ⟨[⟨"Retrieved", "id1", "u", "1", "", true⟩],
        some [("id1", "Success")], none⟩ (some 1)).1.ledger
      = [⟨"Retrieved", "id1", "u", "1", "", true⟩] ∧
    (mergeProgressToCsv ⟨[⟨"Retrieved", "id1", "u", "1", "", true⟩],
        some [("id1", "Success")], none⟩ (some 1)).1.journal
      = some [("id1", "Success")] ∧
    (mergeProgressToCsv ⟨[⟨"Retrieved", "id1", "u", "1", "", true⟩],
        some [("id1", "Success")], none⟩ (some 1)).2 = true ∧
    (mergeProgressToCsv ⟨[⟨"Retrieved", "id1", "u", "1", "", true⟩],
        some [("id1", "Success")], none⟩ none).1
      = ⟨mergeRows [⟨"Retrieved", "id1", "u", "1", "", true⟩]
          (load_progress [("id1", "Success")]), none, none⟩ := by
  have h := c8_merge_exception_safe
    ⟨[⟨"Retrieved", "id1", "u", "1", "", true⟩], some [("id1", "Success")], none⟩
    [("id1", "Success")] rfl (by decide)
  exact ⟨(h.1 1 (by decide)).1, (h.1 1 (by decide)).2.1, (h.1 1 (by decide)).2.2,
    h.2.2.1.1⟩

/-! ## Field accessor

Records are JSON-like values: `None`, booleans, integers, strings and
string-keyed maps (the shapes `get_nested_field_value` distinguishes). -/

inductive PyVal where
  | vNull
  | vBool (b : Bool)
  | vInt (n : Int)
  | vStr (s : String)
  | vDict (fields : List (String × PyVal))

/-- A single quote character, for Python repr of strings. -/
def pyQuote : String := String.singleton (Char.ofNat 39)

mutual

/-- Python `repr` on the modelled values (string escaping inside reprs is
not modelled; no claim inspects the rendering of nested containers). -/
def pyRepr : PyVal → String
  | .vNull => "None"
  | .vBool true => "True"
  | .vBool false => "False"
  | .vInt n => toString n
  | .vStr s => pyQuote ++ s ++ pyQuote
  | .vDict fs => "\x7b" ++ pyReprFields fs ++ "\x7d"

def pyReprFields : List (String × PyVal) → String
  | [] => ""
  | [(k, v)] => pyQuote ++ k ++ pyQuote ++ ": " ++ pyRepr v
  | (k, v) :: p :: rest =>
    pyQuote ++ k ++ pyQuote ++ ": " ++ pyRepr v ++ ", " ++ pyReprFields (p :: rest)

end

/-- Python `str` on the modelled values. -/
def pyStr : PyVal → String
  | .vStr s => s
  | v => pyRepr v

/-- Python truthiness on the modelled values. -/
def pyTruthy : PyVal → Bool
  | .vNull => false
  | .vBool b => b
  | .vInt n => decide (n ≠ 0)
  | .vStr s => decide (s ≠ "")
  | .vDict fs => ¬ fs.isEmpty

/-- Python `dict.get` (no default): `None`, modelled as `none`, when the
key is absent. -/
def pyDictGet (fields : List (String × PyVal)) (k : String) : Option PyVal :=
  (fields.find? (fun p => p.1 = k)).map (fun p => p.2)

/-- Python `'.' in field_path`. -/
def hasDot (s : String) : Bool := s.toList.contains '.'

/-- Helper for `splitOnDot`: `acc` holds the current segment reversed. -/
def splitOnDotChars : List Char → List Char → List String
  | [], acc => [String.mk acc.reverse]
  | '.' :: rest, acc => String.mk acc.reverse :: splitOnDotChars rest []
  | c :: rest, acc => splitOnDotChars rest (c :: acc)

/-- Python `field_path.split('.')`: split on every dot, keeping empty
segments. -/
def splitOnDot (s : String) : List String := splitOnDotChars s.toList []

example : splitOnDot "a.b" = ["a", "b"] := by decide
example : splitOnDot "customFields.decimal1" = ["customFields", "decimal1"] := by decide
example : splitOnDot "." = ["", ""] := by decide

/-- The dotted-path loop of `get_nested_field_value` (absorb_sync.py
lines 462-471): walk the parts; a missing key, a stored `None`, or a
non-dict value before the parts run out yields the empty string; at the
end, `str(value) if value is not None else ""`. -/
def getPartsLoop : PyVal → List String → String
  | .vNull, [] => ""
  | v, [] => pyStr v
  | .vDict fs, part :: rest =>
    (match pyDictGet fs part with
     | none => ""
     | some .vNull => ""
     | some v => getPartsLoop v rest)
  | _, _ :: _ => ""

/-- Embeds `get_nested_field_value` (absorb_sync.py lines 449-475): the
dotted-path branch walks the split parts; the single-segment branch is
`data.get(field_path, "")` followed by `str(value) if value else ""`
(truthiness, not an is-None test). -/
def get_nested_field_value (data : List (String × PyVal)) (fieldPath : String) : String :=
  if hasDot fieldPath then
    getPartsLoop (.vDict data) (splitOnDot fieldPath)
  else
    match pyDictGet data fieldPath with
    | none => ""
    | some v => if pyTruthy v then pyStr v else ""

example : get_nested_field_value [("a", .vInt 5)] "a" = "5" := by decide
example : get_nested_field_value [("a", .vDict [("b", .vInt 7)])] "a.b" = "7" := by decide
example : get_nested_field_value [("a", .vInt 5)] "a.b" = "" := by decide
example : get_nested_field_value [("a", .vNull)] "a" = "" := by decide
example : get_nested_field_value [] "a" = "" := by decide

/-- C9 counterexample: the single-segment fast path uses truthiness
(`if value`), not an is-None test, so on a stored integer 0 it returns
the empty string while the general dotted traversal of that one segment
returns "0" — the claimed identical semantics on falsy values fail. -/
theorem c9_fast_path_counterexample :
    get_nested_field_value [("a", PyVal.vInt 0)] "a" = "" ∧
    getPartsLoop (PyVal.vDict [("a", PyVal.vInt 0)]) ["a"] = "0" ∧
    ("" : String) ≠ "0" := by
  refine ⟨by decide, by decide, by decide⟩

/-- C9 (amended): the accessor's dotted traversal is total (never raises)
and always returns either the stringified value reached or the empty
string; the single-segment fast path agrees with the general traversal on
that one segment whenever the stored value is absent, `None`, or truthy —
on a falsy non-None value (such as integer 0) the fast path returns the
empty string instead of the stringified value. -/
theorem c9_accessor_contract (data : List (String × PyVal)) (key : String)
    (hkey : hasDot key = false)
    (hval : ∀ v, pyDictGet data key = some v → v = PyVal.vNull ∨ pyTruthy v = true) :
    (∀ parts v, getPartsLoop v parts = "" ∨ ∃ w, getPartsLoop v parts = pyStr w) ∧
    get_nested_field_value data key = getPartsLoop (PyVal.vDict data) [key] := by
  constructor
  · intro parts
    induction parts with
    | nil =>
      intro v
      cases v with
      | vNull => exact Or.inl rfl
      | vBool b => exact Or.inr ⟨PyVal.vBool b, rfl⟩
      | vInt n => exact Or.inr ⟨PyVal.vInt n, rfl⟩
      | vStr s => exact Or.inr ⟨PyVal.vStr s, rfl⟩
      | vDict fs => exact Or.inr ⟨PyVal.vDict fs, rfl⟩
    | cons part rest ih =>
      intro v
      cases v with
      | vDict fs =>
        cases hg : pyDictGet fs part with
        | none => exact Or.inl (by simp [getPartsLoop, hg])
        | some w =>
          cases w with
          | vNull => exact Or.inl (by simp [getPartsLoop, hg])
          | vBool b => simpa [getPartsLoop, hg] using ih (PyVal.vBool b)
          | vInt n => simpa [getPartsLoop, hg] using ih (PyVal.vInt n)
          | vStr s => simpa [getPartsLoop, hg] using ih (PyVal.vStr s)
          | vDict gs => simpa [getPartsLoop, hg] using ih (PyVal.vDict gs)
      | vNull => exact Or.inl rfl
      | vBool b => exact Or.inl rfl
      | vInt n => exact Or.inl rfl
      | vStr s => exact Or.inl rfl
  · simp only [get_nested_field_value, hkey, Bool.false_eq_true, if_false]
    cases hg : pyDictGet data key with
    | none => simp [getPartsLoop, hg]
    | some v =>
      rcases hval v hg with hnull | htr
      · subst hnull
        simp [getPartsLoop, hg, pyTruthy]
      · cases v with
        | vNull => simp [pyTruthy] at htr
        | vBool b => simp [getPartsLoop, hg, htr]
        | vInt n => simp [getPartsLoop, hg, htr]
        | vStr s => simp [getPartsLoop, hg, htr]
        | vDict fs => simp [getPartsLoop, hg, htr]

theorem c9_accessor_contract_witness :
    get_nested_field_value [("a", PyVal.vStr "b")] "a"
      = getPartsLoop (PyVal.vDict [("a", PyVal.vStr "b")]) ["a"] :=
  (c9_accessor_contract [("a", PyVal.vStr "b")] "a" (by decide)
    (fun v h => by
      have hv : PyVal.vStr "b" = v := by
        simpa [pyDictGet, List.find?] using h
      exact Or.inr (hv ▸ by decide))).2
